import Mathlib

/-!
Verification of the template compiler/renderer in `src/template.ts`.

The development shallowly embeds the source file: strings are modelled as
`List Char` (`Str`), JavaScript's first-occurrence `String.replace` as
`replaceOnce`, `String.replaceAll` as `List.map`, and the `pascalCase`
function of the `scule` dependency (v1.x) as `pascalCase` below, with the
ASCII case model of Lean's `Char.toUpper`/`Char.toLower` standing in for
JavaScript's `toUpperCase`/`toLowerCase`.

External collaborators (`@vue/compiler-sfc`, `import-string`, `vue`,
`vue-i18n`, `vue-email`) are modelled as an abstract environment of
possibly-throwing functions (`Except`); the repository's own control flow
(`compile`, `loadComponent`, `templateRender`) is translated statement by
statement.
-/

/-- Strings of the JavaScript program, modelled as lists of characters. -/
abbrev Str := List Char

/-! ## Name Normalizer: scule's `splitByCase` / `upperFirst` / `pascalCase` -/

/-- The `STR_SPLITTERS` constant of scule: `["-", "_", "/", "."]`. -/
def STR_SPLITTERS : Str := ['-', '_', '/', '.']

/-- scule's `isUppercase(char)`: `undefined` (here `none`) for digits
(`NUMBER_CHAR_RE = /\d/`), otherwise `char !== char.toLowerCase()`
(ASCII case model). -/
def isUppercase (c : Char) : Option Bool :=
  if c.isDigit then none else some (c != c.toLower)

/-- The loop state of scule's `splitByCase`: accumulated `parts`, current
`buff`, and the `previousUpper` / `previousSplitter` flags (JavaScript
`undefined` modelled as `none`). -/
structure SplitState where
  parts : List Str
  buff : Str
  previousUpper : Option Bool
  previousSplitter : Option Bool
deriving Repr

/-- One iteration of the `for (const char of str)` loop of scule's
`splitByCase`.  The three `continue` branches (splitter, case rising edge,
case falling edge) leave `previousSplitter` unchanged, exactly as the
JavaScript loop does. -/
def splitStep (st : SplitState) (c : Char) : SplitState :=
  if STR_SPLITTERS.contains c then
    { parts := st.parts ++ [st.buff], buff := [], previousUpper := none,
      previousSplitter := st.previousSplitter }
  else
    -- `const isUpper = isUppercase(char)` is inlined below
    if st.previousSplitter = some false ∧ st.previousUpper = some false ∧
        isUppercase c = some true then
      -- case rising edge
      { parts := st.parts ++ [st.buff], buff := [c], previousUpper := isUppercase c,
        previousSplitter := st.previousSplitter }
    else if st.previousSplitter = some false ∧ st.previousUpper = some true ∧
        isUppercase c = some false ∧ 1 < st.buff.length then
      -- case falling edge: `lastChar = buff.at(-1)` exists since `1 < buff.length`,
      -- so the `getLastD` default is never used
      { parts := st.parts ++ [st.buff.dropLast], buff := [st.buff.getLastD c, c],
        previousUpper := isUppercase c, previousSplitter := st.previousSplitter }
    else
      { parts := st.parts, buff := st.buff ++ [c], previousUpper := isUppercase c,
        previousSplitter := some false }

/-- scule's `splitByCase(str)` with the default splitters: fold the loop body
over the string and push the final `buff` (the empty string short-circuits
to `[]`, as in the source). -/
def splitByCase (s : Str) : List Str :=
  if s = [] then []
  else
    let st := s.foldl splitStep { parts := [], buff := [], previousUpper := none, previousSplitter := none }
    st.parts ++ [st.buff]

/-- scule's `upperFirst(str)`: capitalize the first character (ASCII model). -/
def upperFirst : Str → Str
  | [] => []
  | c :: cs => c.toUpper :: cs

/-- scule's `pascalCase(str)` without the `normalize` option:
`splitByCase(str).map(p => upperFirst(p)).join("")`. -/
def pascalCase (s : Str) : Str :=
  if s = [] then [] else ((splitByCase s).map upperFirst).flatten

/-! ## Name Normalizer: `correctName` from `src/template.ts` -/

/-- The template-file extension `'.vue'` of `name.replace('.vue', '')`. -/
def vueExt : Str := ['.', 'v', 'u', 'e']

/-- JavaScript `name.replaceAll(':', '-')`: replace every colon by a hyphen. -/
def mapColon (s : Str) : Str :=
  s.map fun c => if c = ':' then '-' else c

/-- JavaScript `s.replace(pat, '')` for a non-empty string pattern: remove the
first (leftmost) occurrence of `pat`, if any, leaving the rest unchanged. -/
def replaceOnce (pat : Str) : Str → Str
  | [] => []
  | c :: cs =>
    if pat.isPrefixOf (c :: cs) then (c :: cs).drop pat.length
    else c :: replaceOnce pat cs

/-- `correctName` from `src/template.ts`:
`pascalCase(name.replaceAll(':', '-').replace('.vue', ''))`. -/
def correctName (name : Str) : Str :=
  pascalCase (replaceOnce vueExt (mapColon name))

/-! ## Character-level facts for the ASCII case model -/

theorem char_toNat_ofNat_valid (n : Nat) (h : n < 55296) : (Char.ofNat n).toNat = n := by
  rw [Char.ofNat, dif_pos (Or.inl h)]
  rfl

/-- Behaviour of `Char.toUpper`: either the character is fixed, or it is an
ASCII lowercase letter mapped 32 code points down. -/
theorem toUpper_cases (c : Char) :
    c.toUpper = c ∨
      (97 ≤ c.toNat ∧ c.toNat ≤ 122 ∧ (c.toUpper).toNat = c.toNat - 32) := by
  unfold Char.toUpper
  by_cases h : c.toNat ≥ 97 ∧ c.toNat ≤ 122
  · right
    refine ⟨h.1, h.2, ?_⟩
    rw [if_pos h]
    exact char_toNat_ofNat_valid _ (by omega)
  · left
    rw [if_neg h]

/-- An ASCII uppercase letter (in the sense `c ≠ c.toLower`) is fixed by
`Char.toUpper`. -/
theorem toUpper_eq_of_ne_toLower (c : Char) (h : c != c.toLower) : c.toUpper = c := by
  have hlow : 65 ≤ c.toNat ∧ c.toNat ≤ 90 := by
    by_contra hc
    rw [Char.toLower, if_neg hc] at h
    simp at h
  unfold Char.toUpper
  rw [if_neg (by omega)]

/-- A character whose code point is outside the ASCII lowercase range is fixed
by `Char.toUpper`. -/
theorem toUpper_fix_of_not_low (c : Char) (h : ¬ (97 ≤ c.toNat ∧ c.toNat ≤ 122)) :
    c.toUpper = c := by
  unfold Char.toUpper
  rw [if_neg h]

theorem toUpper_toUpper (c : Char) : c.toUpper.toUpper = c.toUpper := by
  rcases toUpper_cases c with h | ⟨h1, h2, h3⟩
  · rw [h, h]
  · exact toUpper_fix_of_not_low _ (by omega)

/-- Membership in the splitter list, spelled out. -/
theorem splitter_iff (c : Char) :
    STR_SPLITTERS.contains c = true ↔ c = '-' ∨ c = '_' ∨ c = '/' ∨ c = '.' := by
  rw [show STR_SPLITTERS.contains c = STR_SPLITTERS.elem c from rfl, List.elem_iff]
  simp [STR_SPLITTERS]

/-- `Char.toUpper` never produces one of scule's splitter characters from a
non-splitter character. -/
theorem toUpper_not_splitter (c : Char) (h : ¬ STR_SPLITTERS.contains c) :
    ¬ STR_SPLITTERS.contains c.toUpper := by
  rcases toUpper_cases c with hc | ⟨h1, h2, h3⟩
  · rw [hc]; exact h
  · intro hmem
    have : c.toUpper.toNat = 45 ∨ c.toUpper.toNat = 95 ∨ c.toUpper.toNat = 47 ∨
        c.toUpper.toNat = 46 := by
      rcases (splitter_iff _).mp hmem with h | h | h | h
      · left; rw [h]; rfl
      · right; left; rw [h]; rfl
      · right; right; left; rw [h]; rfl
      · right; right; right; rw [h]; rfl
    omega

/-- `Char.toUpper` never produces a colon from a non-colon character. -/
theorem toUpper_ne_colon (c : Char) (h : c ≠ ':') : c.toUpper ≠ ':' := by
  rcases toUpper_cases c with hc | ⟨h1, h2, h3⟩
  · rw [hc]; exact h
  · intro hcol
    have : c.toUpper.toNat = 58 := by rw [hcol]; rfl
    omega

/-- A character recognized as uppercase by scule's `isUppercase` is fixed by
`Char.toUpper`. -/
theorem toUpper_fix_of_isUppercase (c : Char) (h : isUppercase c = some true) :
    c.toUpper = c := by
  unfold isUppercase at h
  split at h
  · cases h
  · exact toUpper_eq_of_ne_toLower c (by simpa using h)

/-- First characters survive `upperFirst` on a list whose first character is
`toUpper`-fixed, and `upperFirst` only touches the first character. -/
theorem upperFirst_dropLast (p : Str) (h : upperFirst p = p) :
    upperFirst p.dropLast = p.dropLast := by
  cases p with
  | nil => rfl
  | cons d ds =>
    cases ds with
    | nil => rfl
    | cons e es =>
      simp only [upperFirst, List.cons.injEq] at h
      simp [List.dropLast, upperFirst, h.1]

/-! ## Invariants of the `splitByCase` loop -/

/-- Effect of one non-splitter loop iteration on the invariant used for the
idempotence proof: fixedness of all accumulated pieces, the
`previousUpper`/`buff` link, and exact character accounting. -/
theorem splitStep_not_splitter (st : SplitState) (c : Char)
    (hc : ¬ STR_SPLITTERS.contains c)
    (hA : ∀ p ∈ st.parts, upperFirst p = p)
    (hB : upperFirst st.buff = st.buff)
    (hD : st.previousUpper = st.buff.getLast?.bind isUppercase)
    (hE : st.buff = [] → c.toUpper = c) :
    (∀ p ∈ (splitStep st c).parts, upperFirst p = p) ∧
    upperFirst (splitStep st c).buff = (splitStep st c).buff ∧
    (splitStep st c).previousUpper = (splitStep st c).buff.getLast?.bind isUppercase ∧
    (splitStep st c).buff ≠ [] ∧
    (splitStep st c).parts.flatten ++ (splitStep st c).buff
      = st.parts.flatten ++ st.buff ++ [c] := by
  unfold splitStep
  rw [if_neg hc]
  split_ifs with h1 h2
  · -- case rising edge
    refine ⟨?_, ?_, ?_, ?_, ?_⟩
    · intro p hp
      rcases List.mem_append.mp hp with hp | hp
      · exact hA p hp
      · simp only [List.mem_singleton] at hp
        rw [hp]; exact hB
    · simp [upperFirst, toUpper_fix_of_isUppercase c h1.2.2]
    · simp
    · simp
    · simp [List.flatten_append]
  · -- case falling edge
    have hbuff : st.buff ≠ [] := by
      intro hb; rw [hb] at h2; simp at h2
    have hlast : st.buff.getLast? = some (st.buff.getLast hbuff) :=
      List.getLast?_eq_getLast st.buff hbuff
    have hup : isUppercase (st.buff.getLast hbuff) = some true := by
      rw [hD, hlast] at h2
      exact h2.2.1.symm ▸ h2.2.1
    have hD' : st.buff.getLastD c = st.buff.getLast hbuff := by
      rw [List.getLastD_eq_getLast?, hlast]; rfl
    refine ⟨?_, ?_, ?_, ?_, ?_⟩
    · intro p hp
      rcases List.mem_append.mp hp with hp | hp
      · exact hA p hp
      · simp only [List.mem_singleton] at hp
        rw [hp]; exact upperFirst_dropLast _ hB
    · simp only [upperFirst, List.getLastD_eq_getLast?, hlast, Option.getD_some]
      rw [toUpper_fix_of_isUppercase _ hup]
    · simp
    · simp
    · have : st.buff.dropLast ++ [st.buff.getLastD c] = st.buff := by
        rw [hD']
        exact List.dropLast_append_getLast? _ (Option.mem_def.mpr hlast)
      calc (st.parts ++ [st.buff.dropLast]).flatten ++ [st.buff.getLastD c, c]
          = st.parts.flatten ++ (st.buff.dropLast ++ [st.buff.getLastD c]) ++ [c] := by
            simp [List.flatten_append]
        _ = st.parts.flatten ++ st.buff ++ [c] := by rw [this]
  · -- normal character
    refine ⟨hA, ?_, ?_, ?_, ?_⟩
    · cases hb : st.buff with
      | nil => simp [upperFirst, hE hb]
      | cons d ds =>
        rw [hb] at hB
        simp only [upperFirst, List.cons.injEq] at hB
        simp [upperFirst, hB.1]
    · simp [List.getLast?_concat]
    · simp
    · simp

/-- Folding the loop over a splitter-free suffix whose first character is
`toUpper`-fixed (when the buffer is empty) keeps every accumulated piece
fixed under `upperFirst` and appends exactly the consumed characters. -/
theorem foldl_splitStep_fix (rest : Str) :
    ∀ st : SplitState,
    (∀ c ∈ rest, ¬ STR_SPLITTERS.contains c) →
    (∀ p ∈ st.parts, upperFirst p = p) →
    upperFirst st.buff = st.buff →
    st.previousUpper = st.buff.getLast?.bind isUppercase →
    (st.buff = [] → ∀ c, rest.head? = some c → c.toUpper = c) →
    (∀ p ∈ (rest.foldl splitStep st).parts, upperFirst p = p) ∧
    upperFirst (rest.foldl splitStep st).buff = (rest.foldl splitStep st).buff ∧
    (rest.foldl splitStep st).parts.flatten ++ (rest.foldl splitStep st).buff
      = st.parts.flatten ++ st.buff ++ rest := by
  induction rest with
  | nil =>
    intro st _ hA hB _ _
    exact ⟨hA, hB, by simp⟩
  | cons c cs ih =>
    intro st hns hA hB hD hE
    have hc : ¬ STR_SPLITTERS.contains c := hns c (by simp)
    obtain ⟨hA', hB', hD', hne', hchars⟩ :=
      splitStep_not_splitter st c hc hA hB hD (fun hb => hE hb c rfl)
    have hrec := ih (splitStep st c) (fun d hd => hns d (by simp [hd])) hA' hB' hD'
      (fun hb => absurd hb hne')
    refine ⟨hrec.1, hrec.2.1, ?_⟩
    calc ((c :: cs).foldl splitStep st).parts.flatten ++ ((c :: cs).foldl splitStep st).buff
        = (cs.foldl splitStep (splitStep st c)).parts.flatten
            ++ (cs.foldl splitStep (splitStep st c)).buff := rfl
      _ = (splitStep st c).parts.flatten ++ (splitStep st c).buff ++ cs := hrec.2.2
      _ = st.parts.flatten ++ st.buff ++ [c] ++ cs := by rw [hchars]
      _ = st.parts.flatten ++ st.buff ++ (c :: cs) := by simp

/-- Mapping `upperFirst` over a family of fixed pieces is the identity. -/
theorem map_upperFirst_id {l : List Str} (h : ∀ p ∈ l, upperFirst p = p) :
    l.map upperFirst = l := by
  induction l with
  | nil => rfl
  | cons p ps ih =>
    simp only [List.map_cons, h p (by simp), List.cons.injEq, true_and]
    exact ih fun q hq => h q (by simp [hq])

/-- A splitter-free string whose head is `toUpper`-fixed is a fixed point of
`pascalCase`. -/
theorem pascalCase_fixed (y : Str) (hns : ∀ c ∈ y, ¬ STR_SPLITTERS.contains c)
    (hhead : ∀ c, y.head? = some c → c.toUpper = c) : pascalCase y = y := by
  unfold pascalCase splitByCase
  split
  · rename_i h; exact h.symm
  · obtain ⟨hA, hB, hchars⟩ := foldl_splitStep_fix y
      { parts := [], buff := [], previousUpper := none, previousSplitter := none }
      hns (by simp) rfl rfl (fun _ => hhead)
    have hmap : ((y.foldl splitStep
        { parts := [], buff := [], previousUpper := none, previousSplitter := none }).parts
          ++ [(y.foldl splitStep
        { parts := [], buff := [], previousUpper := none, previousSplitter := none }).buff]).map
          upperFirst
        = _ := map_upperFirst_id (l := _) ?_
    · rw [hmap, List.flatten_append]
      simpa using hchars
    · intro p hp
      rcases List.mem_append.mp hp with hp | hp
      · exact hA p hp
      · simp only [List.mem_singleton] at hp
        rw [hp]; exact hB

/-- Characters in the state after one loop iteration either were already in
the state or are the consumed character (which is then not a splitter). -/
theorem splitStep_mem (st : SplitState) (d c : Char)
    (h : c ∈ (splitStep st d).parts.flatten ++ (splitStep st d).buff) :
    c ∈ st.parts.flatten ++ st.buff ∨ (c = d ∧ ¬ STR_SPLITTERS.contains d) := by
  unfold splitStep at h
  split_ifs at h with h0 h1 h2
  · -- splitter: `buff` pushed, nothing new
    left
    simpa [List.flatten_append] using h
  · -- rising edge
    simp only [List.flatten_append, List.flatten_cons, List.flatten_nil, List.append_nil,
      List.mem_append, List.mem_singleton] at h
    rcases h with (h | h) | h
    · exact Or.inl (List.mem_append.mpr (Or.inl h))
    · exact Or.inl (List.mem_append.mpr (Or.inr h))
    · exact Or.inr ⟨h, by simpa using h0⟩
  · -- falling edge
    simp only [List.flatten_append, List.flatten_cons, List.flatten_nil, List.append_nil,
      List.mem_append, List.mem_cons, List.mem_singleton, List.not_mem_nil, or_false] at h
    rcases h with (h | h) | h | h
    · exact Or.inl (List.mem_append.mpr (Or.inl h))
    · exact Or.inl (List.mem_append.mpr (Or.inr (List.dropLast_subset _ h)))
    · -- the revived last character of `buff`
      rcases hb : st.buff with _ | ⟨x, xs⟩
      · rw [hb] at h
        exact Or.inr ⟨by simpa using h, by simpa using h0⟩
      · left
        apply List.mem_append.mpr
        right
        rw [h, List.getLastD_eq_getLast?, hb,
          List.getLast?_eq_getLast _ (List.cons_ne_nil x xs), Option.getD_some]
        exact List.getLast_mem _
    · exact Or.inr ⟨h, by simpa using h0⟩
  · -- normal character
    simp only [List.mem_append, List.mem_singleton] at h ⊢
    rcases h with h | h | h
    · exact Or.inl (Or.inl h)
    · exact Or.inl (Or.inr h)
    · exact Or.inr ⟨h, by simpa using h0⟩

/-- Characters accumulated by the loop come from the initial state or from the
consumed input, and accumulated input characters are never splitters. -/
theorem foldl_splitStep_mem (rest : Str) :
    ∀ st : SplitState, ∀ c : Char,
    c ∈ (rest.foldl splitStep st).parts.flatten ++ (rest.foldl splitStep st).buff →
    c ∈ st.parts.flatten ++ st.buff ∨ (c ∈ rest ∧ ¬ STR_SPLITTERS.contains c) := by
  induction rest with
  | nil => intro st c h; exact Or.inl h
  | cons d ds ih =>
    intro st c h
    rcases ih (splitStep st d) c h with h | h
    · rcases splitStep_mem st d c h with h | ⟨rfl, hns⟩
      · exact Or.inl h
      · exact Or.inr ⟨by simp, hns⟩
    · exact Or.inr ⟨by simp [h.1], h.2⟩

/-- Characters of any piece produced by `splitByCase` come from the input and
are not splitters. -/
theorem mem_splitByCase (z q : Str) (hq : q ∈ splitByCase z) (x : Char) (hx : x ∈ q) :
    x ∈ z ∧ ¬ STR_SPLITTERS.contains x := by
  unfold splitByCase at hq
  split at hq
  · cases hq
  · have hmem : x ∈ (z.foldl splitStep
        { parts := [], buff := [], previousUpper := none, previousSplitter := none }).parts.flatten
        ++ (z.foldl splitStep
        { parts := [], buff := [], previousUpper := none, previousSplitter := none }).buff := by
      rcases List.mem_append.mp hq with hq | hq
      · exact List.mem_append.mpr (Or.inl (List.mem_flatten_of_mem hq hx))
      · simp only [List.mem_singleton] at hq
        rw [hq] at hx
        exact List.mem_append.mpr (Or.inr hx)
    rcases foldl_splitStep_mem z _ x hmem with h | h
    · simp at h
    · exact h

/-- Provenance of the characters of `pascalCase`: each is a non-splitter input
character, possibly sent through `Char.toUpper`. -/
theorem mem_pascalCase (z : Str) (c : Char) (h : c ∈ pascalCase z) :
    ∃ d, d ∈ z ∧ ¬ STR_SPLITTERS.contains d ∧ (c = d ∨ c = d.toUpper) := by
  unfold pascalCase at h
  split at h
  · cases h
  · obtain ⟨p, hp, hcp⟩ := List.mem_flatten.mp h
    obtain ⟨q, hq, rfl⟩ := List.mem_map.mp hp
    cases q with
    | nil => cases hcp
    | cons a as =>
      simp only [upperFirst, List.mem_cons] at hcp
      rcases hcp with rfl | hcp
      · obtain ⟨ha, hns⟩ := mem_splitByCase z _ hq a (by simp)
        exact ⟨a, ha, hns, Or.inr rfl⟩
      · obtain ⟨hc, hns⟩ := mem_splitByCase z _ hq c (by simp [hcp])
        exact ⟨c, hc, hns, Or.inl rfl⟩

/-- The first character of `pascalCase` output is fixed by `Char.toUpper`. -/
theorem head_pascalCase_fix (z : Str) :
    ∀ c, (pascalCase z).head? = some c → c.toUpper = c := by
  unfold pascalCase
  split
  · intro c h; cases h
  · intro c h
    generalize hL : splitByCase z = L at h
    clear hL
    induction L with
    | nil => cases h
    | cons p ps ih =>
      cases p with
      | nil => exact ih (by simpa [upperFirst] using h)
      | cons a as =>
        simp only [List.map_cons, upperFirst, List.flatten_cons, List.cons_append,
          List.head?_cons, Option.some.injEq] at h
        rw [← h]
        exact toUpper_toUpper a

theorem pascalCase_idem (z : Str) : pascalCase (pascalCase z) = pascalCase z := by
  apply pascalCase_fixed
  · intro c hc
    obtain ⟨d, _, hns, hcd⟩ := mem_pascalCase z c hc
    rcases hcd with rfl | rfl
    · exact hns
    · exact toUpper_not_splitter d hns
  · exact head_pascalCase_fix z

/-! ## Idempotence and characterization of `correctName` -/

theorem mapColon_no_colon (x : Str) : ∀ c ∈ mapColon x, c ≠ ':' := by
  intro c hc
  obtain ⟨d, _, rfl⟩ := List.mem_map.mp hc
  split_ifs with h
  · simp
  · simpa using h

theorem mapColon_id (s : Str) (h : ∀ c ∈ s, c ≠ ':') : mapColon s = s := by
  unfold mapColon
  induction s with
  | nil => rfl
  | cons c cs ih =>
    simp only [List.map_cons, List.cons.injEq]
    refine ⟨by rw [if_neg (h c (by simp))], ih fun d hd => h d (by simp [hd])⟩

theorem mem_replaceOnce (pat s : Str) (c : Char) (h : c ∈ replaceOnce pat s) : c ∈ s := by
  induction s with
  | nil => cases h
  | cons d ds ih =>
    unfold replaceOnce at h
    split_ifs at h
    · exact List.mem_of_mem_drop h
    · rcases List.mem_cons.mp h with rfl | h
      · simp
      · simp [ih h]

theorem replaceOnce_id_no_dot (s : Str) (h : '.' ∉ s) : replaceOnce vueExt s = s := by
  induction s with
  | nil => rfl
  | cons c cs ih =>
    unfold replaceOnce
    rw [if_neg, ih fun hd => h (by simp [hd])]
    intro hp
    obtain ⟨t, ht⟩ := List.isPrefixOf_iff_prefix.mp hp
    apply h
    rw [← ht]
    simp [vueExt]

/-- Claim C4: `correctName` is total (it is a Lean function, hence terminates
on every string) and idempotent: normalizing twice equals normalizing once,
for every input string. -/
theorem correctName_idempotent (x : Str) : correctName (correctName x) = correctName x := by
  unfold correctName
  have hz : ∀ c ∈ replaceOnce vueExt (mapColon x), c ≠ ':' :=
    fun c hc => mapColon_no_colon x c (mem_replaceOnce _ _ _ hc)
  have h1 : mapColon (pascalCase (replaceOnce vueExt (mapColon x)))
      = pascalCase (replaceOnce vueExt (mapColon x)) := by
    apply mapColon_id
    intro c hc
    obtain ⟨d, hd, hns, hcd⟩ := mem_pascalCase _ c hc
    rcases hcd with hcd | hcd
    · rw [hcd]; exact hz d hd
    · rw [hcd]; exact toUpper_ne_colon d (hz d hd)
  have h2 : replaceOnce vueExt (pascalCase (replaceOnce vueExt (mapColon x)))
      = pascalCase (replaceOnce vueExt (mapColon x)) := by
    apply replaceOnce_id_no_dot
    intro hdot
    obtain ⟨d, _, hns, hcd⟩ := mem_pascalCase _ '.' hdot
    rcases hcd with hcd | hcd
    · exact hns (by rw [← hcd]; decide)
    · exact toUpper_not_splitter d hns (by rw [← hcd]; decide)
  rw [h1, h2, pascalCase_idem]

/-! ## Claim C3: what `correctName` does to the `.vue` extension -/

/-- Modelled from the spec's words for claim C3: strip a TRAILING `.vue`
extension if present - and only a trailing one - after replacing namespace
separators, then PascalCase.  This is the claimed behaviour, to be compared
with the source-derived `correctName`. -/
def stripTrailingVue (s : Str) : Str :=
  if vueExt.isSuffixOf s then s.take (s.length - 4) else s

/-- Modelled from the spec's words for claim C3: the claimed normalizer. -/
def correctNameClaimedTrailing (name : Str) : Str :=
  pascalCase (stripTrailingVue (mapColon name))

/-- Claim C3 as stated is false: on the input `"a.vueb"`, whose only `.vue`
occurrence is NOT trailing, the code removes that first occurrence (JavaScript
`String.replace` replaces the leftmost match) and yields `"Ab"`, while the
claimed behaviour (leave non-trailing occurrences intact) yields `"AVueb"`. -/
theorem correctName_trailing_counterexample :
    correctName ("a.vueb".data) = "Ab".data ∧
    correctNameClaimedTrailing ("a.vueb".data) = "AVueb".data ∧
    correctName ("a.vueb".data) ≠ correctNameClaimedTrailing ("a.vueb".data) := by
  refine ⟨by decide, by decide, by decide⟩

/-- Independent specification of leftmost-occurrence removal: search all
positions from the left for the first one where `.vue` occurs, and splice it
out there. -/
def removeLeftmostVue (s : Str) : Str :=
  match (List.range s.length).find? (fun i => vueExt.isPrefixOf (s.drop i)) with
  | some i => s.take i ++ s.drop (i + 4)
  | none => s

theorem removeLeftmostVue_cons_pos (c : Char) (cs : Str)
    (hp : vueExt.isPrefixOf (c :: cs)) :
    removeLeftmostVue (c :: cs) = (c :: cs).drop 4 := by
  unfold removeLeftmostVue
  rw [List.length_cons, List.range_succ_eq_map,
    List.find?_cons_of_pos _ (by simpa using hp)]
  rfl

theorem removeLeftmostVue_cons_neg (c : Char) (cs : Str)
    (hp : ¬ vueExt.isPrefixOf (c :: cs)) :
    removeLeftmostVue (c :: cs) = c :: removeLeftmostVue cs := by
  unfold removeLeftmostVue
  rw [List.length_cons, List.range_succ_eq_map,
    List.find?_cons_of_neg _ (by simpa using hp), List.find?_map]
  have harg : ((fun i => vueExt.isPrefixOf ((c :: cs).drop i)) ∘ Nat.succ)
      = fun i => vueExt.isPrefixOf (cs.drop i) := by
    funext i
    rfl
  rw [harg]
  cases hf : List.find? (fun i => vueExt.isPrefixOf (cs.drop i)) (List.range cs.length) with
  | none => rfl
  | some i => rfl

theorem replaceOnce_eq_removeLeftmostVue (s : Str) :
    replaceOnce vueExt s = removeLeftmostVue s := by
  induction s with
  | nil => rfl
  | cons c cs ih =>
    unfold replaceOnce
    by_cases hp : vueExt.isPrefixOf (c :: cs)
    · rw [if_pos hp, removeLeftmostVue_cons_pos c cs hp]
      rfl
    · rw [if_neg hp, removeLeftmostVue_cons_neg c cs hp, ih]

/-- Claim C3 amended: `correctName` replaces every namespace separator `':'`
with a hyphen, removes the FIRST (leftmost) occurrence of the extension text
`.vue` - wherever it occurs, not only a trailing one - and PascalCases the
result. -/
theorem correctName_first_occurrence :
    ∀ name : Str, correctName name = pascalCase (removeLeftmostVue (mapColon name)) := by
  intro name
  unfold correctName
  rw [replaceOnce_eq_removeLeftmostVue]

/-! ## Data model of the inputs (`./types` is not under `src/`) -/

/-- Modelled from the spec: the `i18n` payload of `RenderOptions` and of the
global config (the repository's `./types` module is absent from `src/`):
`{ defaultLocale?: string, translations?: mapping }`.  The translations
mapping is opaque to `template.ts` and is modelled as a token; as a
JavaScript object it is truthy whenever present. -/
structure I18nOptions where
  defaultLocale : Option Str
  translations : Option Str
deriving Repr, DecidableEq

/-- Modelled from the spec: `RenderOptions = { props?, i18n? }`; the props
bag is opaque and modelled as a token. -/
structure RenderOptions where
  props : Option Str
  i18n : Option I18nOptions
deriving Repr, DecidableEq

/-- Modelled from the spec: the `options` field of the global config
(`{ props?, i18n?, ...other plugin-wide settings }`; the other settings are
not read by `template.ts` and are elided). -/
structure GlobalOptions where
  props : Option Str
  i18n : Option I18nOptions
deriving Repr, DecidableEq

/-- Modelled from the spec: the global config `Options = { verbose?, options? }`. -/
structure Options where
  verbose : Option Bool
  options : Option GlobalOptions
deriving Repr, DecidableEq

/-- Modelled from the spec: one entry of `SourceOptions.components`:
`{ name: string, source: string }`. -/
structure EmailComponent where
  name : Str
  source : Str
deriving Repr, DecidableEq

/-- Modelled from the spec: `SourceOptions = { source, components? }`. -/
structure SourceOptions where
  source : Str
  components : Option (List EmailComponent)
deriving Repr, DecidableEq

/-! ## Data model of the `@vue/compiler-sfc` collaborator -/

/-- One `<style>` block of a parsed SFC descriptor: its content and its
`scoped` flag. -/
structure StyleBlock where
  content : Str
  «scoped» : Bool
deriving Repr, DecidableEq

/-- The descriptor returned by `parse`: optional script / scriptSetup blocks
(content tokens), the ordered style blocks, and the optional template block
content.  `descriptor.filename` is the filename recorded by the parser. -/
structure SFCDescriptor where
  filename : Str
  script : Option Str
  scriptSetup : Option Str
  styles : List StyleBlock
  template : Option Str
deriving Repr, DecidableEq

/-- The `{ descriptor, errors }` result of `parse` (each diagnostic modelled
by its string rendering, as consumed by `errors.join`). -/
structure ParseResult where
  descriptor : SFCDescriptor
  errors : List Str
deriving Repr, DecidableEq

/-- Result of `compileScript`: generated `content` and the binding metadata
token `bindings`. -/
structure ScriptCompileResult where
  content : Str
  bindings : Str
deriving Repr, DecidableEq

/-- Result of `compileStyle`: the generated CSS `code`. -/
structure StyleCompileResult where
  code : Str
deriving Repr, DecidableEq

/-- Result of `compileTemplate`: the generated render-function `code`. -/
structure TemplateCompileResult where
  code : Str
deriving Repr, DecidableEq

/-- Calls made by `compile` to the compiler-sfc collaborator, with the
arguments the source passes at each call site; used to state that a
compilation stage was (or was not) attempted. -/
inductive CompileEvent where
  | parseCall (source : Str) (filename : Str)
  | scriptCall (id : Str) (genDefaultAs : Str)
  | styleCall (id : Str) (filename : Str) (source : Str) («scoped» : Bool)
  | templateCall (filename : Str) (id : Str) (source : Str) (bindings : Option Str)
deriving Repr, DecidableEq

/-- Arguments of `createI18n` as built by `templateRender` (message catalog
and instance are opaque tokens; `warnHtmlInMessage` is the literal passed). -/
structure I18nArgs where
  locale : Str
  fallbackLocale : Str
  messages : Option Str
  silentFallbackWarn : Bool
  silentTranslationWarn : Bool
  warnHtmlInMessage : Str
deriving Repr, DecidableEq

/-- The per-call Vue application instance: root component and props, the
`VueEmailPlugin` install argument, the `app.config.performance` flag, the
component registry (a JavaScript object: name to registered value, where the
registered value records the loaded definition token and the module-level
`components` object spread into it), and the installed i18n plugin. -/
structure App where
  root : Str
  rootProps : Option Str
  vueEmailOptions : Option GlobalOptions
  performance : Bool
  components : Str → Option (Str × Str)
  i18n : Option (Str × I18nArgs)

/-- The abstract collaborator environment: `parse`, `compileScript`
(descriptor, id, genDefaultAs), `compileStyle` (id, filename, source,
scoped), `compileTemplate` (filename, id, source, binding metadata),
`importModule` (module text to default-export token), `renderToString`,
`cleanup`, and `createI18n`.  Failure of a collaborator (a thrown
exception or rejected promise) is an `Except.error`. -/
structure RenderEnv where
  parse : Str → Str → ParseResult
  compileScript : SFCDescriptor → Str → Str → Except Str ScriptCompileResult
  compileStyle : Str → Str → Str → Bool → Except Str StyleCompileResult
  compileTemplate : Str → Str → Str → Option Str → Except Str TemplateCompileResult
  importModule : Str → Except Str Str
  renderToString : App → Except Str Str
  cleanup : Str → Str
  createI18n : I18nArgs → Except Str Str

/-! ## The Source Compiler: `compile` from `src/template.ts` -/

/-- The fixed internal symbol `const scriptIdentifier = '_sfc_main'`. -/
def scriptIdentifier : Str := "_sfc_main".data

/-- Model of `JSON.stringify` on a string (quote wrapping with escaping of
quotes and backslashes; other escapes do not occur in the arguments the
program passes). -/
def jsonEscapeChar (c : Char) : Str :=
  if c = '"' then ['\\', '"'] else if c = '\\' then ['\\', '\\'] else [c]

def jsonStringify (s : Str) : Str :=
  '"' :: (s.map jsonEscapeChar).flatten ++ ['"']

/-- JavaScript `errors.join(newline)` on the string renderings of the parse
diagnostics. -/
def joinLines (l : List Str) : Str :=
  List.intercalate ['\n'] l

/-- The fused module body: the template literal at the end of `compile`,
reproduced character for character (ternaries on the presence of the script
and style results). -/
def fuseOutput (script : Option ScriptCompileResult) (styles : Option StyleCompileResult)
    (templateCode : Str) (descriptorFilename : Str) : Str :=
  "\n  ".data ++ templateCode ++ "\n".data
    ++ "\n  ".data ++ (match script with
        | some s => s.content
        | none => [])
    ++ "\n  ".data ++ (match styles with
        | some st => "const styles = `".data ++ st.code ++ "`".data
        | none => [])
    ++ "\n  ".data ++ (match script with
        | some _ => scriptIdentifier ++ ".render = render".data
        | none => "const ".data ++ scriptIdentifier ++ " = \x7b render \x7d".data)
    ++ "\n  ".data ++ (match styles with
        | some _ => scriptIdentifier ++ ".style = styles".data
        | none => [])
    ++ "\n  ".data ++ scriptIdentifier ++ ".__file = ".data ++ jsonStringify descriptorFilename
    ++ "\n  ".data ++ (match script with
        | some _ => "export default ".data ++ scriptIdentifier
        | none => "export default \x7b render \x7d".data)
    ++ "\n  ".data

/-- The `if (descriptor.script || descriptor.scriptSetup)` stage: call
`compileScript(descriptor, { id: descriptor.filename, genDefaultAs })` when a
script block is present. -/
def scriptStep (env : RenderEnv) (d : SFCDescriptor) :
    Except Str (Option ScriptCompileResult) × List CompileEvent :=
  if d.script.isSome || d.scriptSetup.isSome then
    (match env.compileScript d d.filename scriptIdentifier with
      | Except.ok s => Except.ok (some s)
      | Except.error e => Except.error e,
     [CompileEvent.scriptCall d.filename scriptIdentifier])
  else (Except.ok none, [])

/-- The `if (descriptor.styles && descriptor.styles.length)` stage: compile
only the first style block's content, with `scoped` set when ANY style block
declares itself scoped. -/
def styleStep (env : RenderEnv) (filename : Str) (d : SFCDescriptor) :
    Except Str (Option StyleCompileResult) × List CompileEvent :=
  match d.styles with
  | [] => (Except.ok none, [])
  | s0 :: rest =>
    (match env.compileStyle d.filename filename s0.content ((s0 :: rest).any StyleBlock.«scoped») with
      | Except.ok r => Except.ok (some r)
      | Except.error e => Except.error e,
     [CompileEvent.styleCall d.filename filename s0.content ((s0 :: rest).any StyleBlock.«scoped»)])

/-- The `compileTemplate` stage.  `descriptor.template!.content` throws a
`TypeError` at run time when the template block is absent (the TypeScript `!`
performs no check), BEFORE `compileTemplate` is invoked; binding metadata is
passed exactly when a script result exists. -/
def templateStep (env : RenderEnv) (filename : Str) (d : SFCDescriptor)
    (script : Option ScriptCompileResult) :
    Except Str TemplateCompileResult × List CompileEvent :=
  match d.template with
  | none => (Except.error ("TypeError: cannot read content of null template".data), [])
  | some tsrc =>
    (env.compileTemplate filename d.filename tsrc (script.map ScriptCompileResult.bindings),
     [CompileEvent.templateCall filename d.filename tsrc (script.map ScriptCompileResult.bindings)])

/-- `compile(filename, source, verbose)` from `src/template.ts`, returning the
generated module text (or the thrown error) together with the trace of
collaborator calls.  Parsing diagnostics abort compilation with
`new Error(errors.join(newline))` before any block is compiled. -/
def compile (env : RenderEnv) (filename source : Str) (verbose : Bool) :
    Except Str Str × List CompileEvent :=
  let pr := env.parse source filename
  let d := pr.descriptor
  let tr0 : List CompileEvent := [CompileEvent.parseCall source filename]
  if pr.errors.length ≠ 0 then (Except.error (joinLines pr.errors), tr0)
  else
    match scriptStep env d with
    | (Except.error e, tr1) => (Except.error e, tr0 ++ tr1)
    | (Except.ok script, tr1) =>
      match styleStep env filename d with
      | (Except.error e, tr2) => (Except.error e, tr0 ++ tr1 ++ tr2)
      | (Except.ok styles, tr2) =>
        match templateStep env filename d script with
        | (Except.error e, tr3) => (Except.error e, tr0 ++ tr1 ++ tr2 ++ tr3)
        | (Except.ok t, tr3) =>
          (Except.ok (fuseOutput script styles t.code d.filename),
           tr0 ++ tr1 ++ tr2 ++ tr3)

/-! ## Evaluation model of the fused module body (for the Loader) -/

/-- The value obtained by dynamically evaluating the fused module body and
reading its default export: the render function (identified by the template
code that defines it), the `style` and `__file` fields if the evaluated
statements set them on the exported object, and the script-defined option
fields (present exactly when a script block contributed them). -/
structure EvaledComponent where
  render : Str
  style : Option Str
  file : Option Str
  scriptPart : Option Str
deriving Repr, DecidableEq

/-- Evaluation of the statements of `fuseOutput`, line by line.  With a
script, `_sfc_main` is the object created by the script body
(`genDefaultAs`), and the subsequent assignments `_sfc_main.render = render`,
`_sfc_main.style = styles` (when styles exist) and `_sfc_main.__file = ...`
mutate it before `export default _sfc_main`.  Without a script,
`const _sfc_main = { render }` creates one object, the same assignments
mutate THAT object, but the final line `export default { render }` exports a
DIFFERENT, fresh object carrying only the render function. -/
def fusedDefaultExport (script : Option ScriptCompileResult)
    (styles : Option StyleCompileResult) (templateCode : Str)
    (descriptorFilename : Str) : EvaledComponent :=
  match script with
  | some sc =>
    { render := templateCode
      style := styles.map StyleCompileResult.code
      file := some descriptorFilename
      scriptPart := some sc.content }
  | none =>
    { render := templateCode
      style := none
      file := none
      scriptPart := none }

/-! ## The Dynamic Component Loader: `loadComponent` -/

/-- `loadComponent(name, source, verbose)` from `src/template.ts`: re-normalize
the name, compile, dynamically import the generated text and take its default
export; any failure is caught, logged, and turned into `null` (`none`). -/
def loadComponent (env : RenderEnv) (name source : Str) (verbose : Bool) : Option Str :=
  match (compile env (correctName name) source verbose).1 with
  | Except.error _ => none
  | Except.ok text =>
    match env.importModule text with
    | Except.ok comp => some comp
    | Except.error _ => none

/-! ## The Render Orchestrator: `templateRender` -/

/-- JavaScript string truthiness of an optional string
(`undefined` and `""` are falsy). -/
def strTruthy (s : Option Str) : Bool :=
  match s with
  | none => false
  | some s => !s.isEmpty

/-- `options?.i18n`. -/
def optionsI18n (options : Option RenderOptions) : Option I18nOptions :=
  options.bind RenderOptions.i18n

/-- `config?.options?.i18n`. -/
def configI18n (config : Option Options) : Option I18nOptions :=
  (config.bind Options.options).bind GlobalOptions.i18n

/-- `const verbose = config?.verbose || false`. -/
def verboseOf (config : Option Options) : Bool :=
  (config.bind Options.verbose).getD false

/-- `const hasI18n = options?.i18n?.defaultLocale ||
config?.options?.i18n?.defaultLocale || options?.i18n?.translations ||
config?.options?.i18n?.translations`, as a truthiness value (translations
objects are truthy whenever present). -/
def hasI18n (options : Option RenderOptions) (config : Option Options) : Bool :=
  strTruthy ((optionsI18n options).bind I18nOptions.defaultLocale)
    || strTruthy ((configI18n config).bind I18nOptions.defaultLocale)
    || ((optionsI18n options).bind I18nOptions.translations).isSome
    || ((configI18n config).bind I18nOptions.translations).isSome

/-- `const props = options?.props || config?.options?.props` (props objects
are truthy whenever present). -/
def propsOf (options : Option RenderOptions) (config : Option Options) : Option Str :=
  (options.bind RenderOptions.props).or ((config.bind Options.options).bind GlobalOptions.props)

/-- JavaScript `a || b` where `a` is an optional string and `b` a string:
take `a` when it is present and non-empty. -/
def jsOrStr (a : Option Str) (b : Str) : Str :=
  match a with
  | some s => if s.isEmpty then b else s
  | none => b

/-- The resolved `i18nOptions.defaultLocale`:
`options?.i18n?.defaultLocale || config?.options?.i18n?.defaultLocale || 'en'`. -/
def resolvedDefaultLocale (options : Option RenderOptions) (config : Option Options) : Str :=
  jsOrStr ((optionsI18n options).bind I18nOptions.defaultLocale)
    (jsOrStr ((configI18n config).bind I18nOptions.defaultLocale) ("en".data))

/-- The resolved `i18nOptions.translations`:
`options?.i18n?.translations || config?.options?.i18n?.translations`. -/
def resolvedTranslations (options : Option RenderOptions) (config : Option Options) : Option Str :=
  ((optionsI18n options).bind I18nOptions.translations).or
    ((configI18n config).bind I18nOptions.translations)

/-- The argument record passed to `createI18n`: active locale and fallback
locale are both the resolved default locale, warnings are tied to `verbose`,
HTML warnings are off. -/
def i18nArgsOf (options : Option RenderOptions) (config : Option Options)
    (verbose : Bool) : I18nArgs :=
  { locale := resolvedDefaultLocale options config
    fallbackLocale := resolvedDefaultLocale options config
    messages := resolvedTranslations options config
    silentFallbackWarn := !verbose
    silentTranslationWarn := !verbose
    warnHtmlInMessage := "off".data }

/-- `createApp(component, props)`: a fresh application instance with an empty
component registry, no plugins and no i18n. -/
def createApp (component : Str) (props : Option Str) : App :=
  { root := component
    rootProps := props
    vueEmailOptions := none
    performance := false
    components := fun _ => none
    i18n := none }

/-- The sub-component registration loop: for each listed component, normalize
its name, load it, and on success register `{ ...componentCode, components }`
(the loaded definition spread together with the module-level `components`
object `mc`) under the normalized name; a failed load is skipped silently.
`app.component(name, v)` is an object assignment: it overwrites any earlier
registration under the same name. -/
def registerSubs (env : RenderEnv) (mc : Str) (verbose : Bool) (app : App) :
    List EmailComponent → App
  | [] => app
  | ec :: rest =>
    match loadComponent env (correctName ec.name) ec.source verbose with
    | some cc =>
      registerSubs env mc verbose
        { app with components := fun n =>
            if n = correctName ec.name then some (cc, mc) else app.components n }
        rest
    | none => registerSubs env mc verbose app rest

/-- The error thrown when `createI18n` fails (kolorist colour codes of the
source message elided). -/
def missingI18nMsg : Str :=
  "Missing vue-i18n dependency please install it using: npm i vue-i18n@9".data

/-- The `if (hasI18n) { ... }` block: build the i18n options, and if the
locale is truthy construct the localization engine and install it; a
construction failure is rethrown as the missing-dependency error. -/
def installI18n (env : RenderEnv) (verbose : Bool) (options : Option RenderOptions)
    (config : Option Options) (app : App) : Except Str App :=
  if hasI18n options config then
    if (resolvedDefaultLocale options config).isEmpty then Except.ok app
    else
      match env.createI18n (i18nArgsOf options config verbose) with
      | Except.ok inst =>
        Except.ok { app with i18n := some (inst, i18nArgsOf options config verbose) }
      | Except.error _ => Except.error missingI18nMsg
  else Except.ok app

/-- The fixed legacy doctype string prepended to the cleaned markup. -/
def DOCTYPE : Str :=
  "<!DOCTYPE html PUBLIC \"-//W3C//DTD XHTML 1.0 Transitional//EN\" \"http://www.w3.org/TR/xhtml1/DTD/xhtml1-transitional.dtd\">".data


/-- The tail of the `templateRender` body after the application instance is
fully configured: install i18n, serialize, clean, and prepend the doctype
(factored out of `templateRenderE` for reuse by the state-threaded variant). -/
def finishE (env : RenderEnv) (verbose : Bool) (options : Option RenderOptions)
    (config : Option Options) (app2 : App) : Except Str Str :=
  match installI18n env verbose options config app2 with
  | Except.error e => Except.error e
  | Except.ok app3 =>
    match env.renderToString app3 with
    | Except.error e => Except.error e
    | Except.ok markup => Except.ok (DOCTYPE ++ env.cleanup markup)

/-- The body of `templateRender` before the top-level `catch`: every `throw`
or collaborator failure is an `Except.error`.  `mc` is the module-level
`components` object read by the registration loop. -/
def templateRenderE (env : RenderEnv) (mc : Str) (name : Str) (code : SourceOptions)
    (options : Option RenderOptions) (config : Option Options) : Except Str Str :=
  match loadComponent env (correctName name) code.source (verboseOf config) with
  | none => Except.error ("Component ".data ++ correctName name ++ " not found".data)
  | some component =>
    let app1 := { createApp component (propsOf options config) with
      vueEmailOptions := config.bind Options.options
      performance := true }
    finishE env (verboseOf config) options config
      (match code.components with
        | some comps =>
          if 0 < comps.length then registerSubs env mc (verboseOf config) app1 comps else app1
        | none => app1)

/-- `templateRender(name, code, options, config)`: the top-level `try/catch`
converts any failure of the body into the empty string. -/
def templateRender (env : RenderEnv) (mc : Str) (name : Str) (code : SourceOptions)
    (options : Option RenderOptions) (config : Option Options) : Str :=
  match templateRenderE env mc name code options config with
  | Except.ok doc => doc
  | Except.error _ => []

/-! ## State-threaded variant (module-level state accounting for C9) -/

/-- The registration loop with the module-level `components` object threaded
as explicit state: the loop READS it for the spread at each registration and
never writes it. -/
def registerSubsSt (env : RenderEnv) (verbose : Bool) :
    App × Str → List EmailComponent → App × Str
  | (app, st), [] => (app, st)
  | (app, st), ec :: rest =>
    match loadComponent env (correctName ec.name) ec.source verbose with
    | some cc =>
      registerSubsSt env verbose
        ({ app with components := fun n =>
            if n = correctName ec.name then some (cc, st) else app.components n }, st)
        rest
    | none => registerSubsSt env verbose (app, st) rest

/-- The tail of the body with the module state threaded through (the tail
never touches it). -/
def finishSt (env : RenderEnv) (verbose : Bool) (options : Option RenderOptions)
    (config : Option Options) (appSt : App × Str) : Str × Str :=
  match installI18n env verbose options config appSt.1 with
  | Except.error _ => ([], appSt.2)
  | Except.ok app3 =>
    match env.renderToString app3 with
    | Except.error _ => ([], appSt.2)
    | Except.ok markup => (DOCTYPE ++ env.cleanup markup, appSt.2)

/-- `templateRender` with the module-level `components` object threaded as
explicit state; returns the rendered string together with the state after the
call.  No statement of `templateRender` assigns to module-level bindings, so
the state is only ever passed along. -/
def templateRenderSt (env : RenderEnv) (st : Str) (name : Str) (code : SourceOptions)
    (options : Option RenderOptions) (config : Option Options) : Str × Str :=
  match loadComponent env (correctName name) code.source (verboseOf config) with
  | none => ([], st)
  | some component =>
    let app1 := { createApp component (propsOf options config) with
      vueEmailOptions := config.bind Options.options
      performance := true }
    finishSt env (verboseOf config) options config
      (match code.components with
        | some comps =>
          if 0 < comps.length then registerSubsSt env (verboseOf config) (app1, st) comps
          else (app1, st)
        | none => (app1, st))

theorem registerSubsSt_eq (env : RenderEnv) (verbose : Bool) (comps : List EmailComponent) :
    ∀ app st, registerSubsSt env verbose (app, st) comps
      = (registerSubs env st verbose app comps, st) := by
  induction comps with
  | nil => intro app st; rfl
  | cons ec rest ih =>
    intro app st
    unfold registerSubsSt registerSubs
    cases loadComponent env (correctName ec.name) ec.source verbose with
    | none => exact ih app st
    | some cc => exact ih _ st

theorem finishSt_eq (env : RenderEnv) (verbose : Bool) (options : Option RenderOptions)
    (config : Option Options) (app2 : App) (st : Str) :
    finishSt env verbose options config (app2, st)
      = (match finishE env verbose options config app2 with
          | Except.ok doc => doc
          | Except.error _ => [], st) := by
  unfold finishSt finishE
  cases installI18n env verbose options config app2 with
  | error e => rfl
  | ok app3 =>
    dsimp only
    cases env.renderToString app3 with
    | error e => rfl
    | ok markup => rfl

/-- The state-threaded render agrees with the pure one and returns the module
state unchanged. -/
theorem templateRenderSt_eq (env : RenderEnv) (st : Str) (name : Str)
    (code : SourceOptions) (options : Option RenderOptions) (config : Option Options) :
    templateRenderSt env st name code options config
      = (templateRender env st name code options config, st) := by
  unfold templateRenderSt templateRender templateRenderE
  cases loadComponent env (correctName name) code.source (verboseOf config) with
  | none => rfl
  | some component =>
    simp only
    cases code.components with
    | none => exact finishSt_eq ..
    | some comps =>
      by_cases hlen : 0 < comps.length
      · simp only [if_pos hlen, registerSubsSt_eq]
        exact finishSt_eq ..
      · simp only [if_neg hlen]
        exact finishSt_eq ..

/-! ## Traces of the compilation stages -/

theorem scriptStep_snd (env : RenderEnv) (d : SFCDescriptor) :
    (scriptStep env d).2 =
      if d.script.isSome || d.scriptSetup.isSome then
        [CompileEvent.scriptCall d.filename scriptIdentifier]
      else [] := by
  unfold scriptStep
  split <;> rfl

theorem styleStep_snd (env : RenderEnv) (filename : Str) (d : SFCDescriptor) :
    (styleStep env filename d).2 =
      match d.styles with
      | [] => []
      | s0 :: rest =>
        [CompileEvent.styleCall d.filename filename s0.content
          ((s0 :: rest).any StyleBlock.«scoped»)] := by
  unfold styleStep
  cases d.styles <;> rfl

theorem templateStep_snd (env : RenderEnv) (filename : Str) (d : SFCDescriptor)
    (script : Option ScriptCompileResult) :
    (templateStep env filename d script).2 =
      match d.template with
      | none => []
      | some tsrc =>
        [CompileEvent.templateCall filename d.filename tsrc
          (script.map ScriptCompileResult.bindings)] := by
  unfold templateStep
  cases d.template <;> rfl

/-- Claim C6: when parsing reports at least one diagnostic, `compile` throws
an error whose message is the concatenation (newline join) of all
diagnostics, and the call trace contains only the `parse` call: no script,
style, or template compilation is attempted. -/
theorem compile_parse_errors_abort (env : RenderEnv) (filename source : Str)
    (verbose : Bool) (e : Str) (es : List Str)
    (h : (env.parse source filename).errors = e :: es) :
    compile env filename source verbose =
      (Except.error (joinLines (e :: es)), [CompileEvent.parseCall source filename]) := by
  simp only [compile, h]
  rw [if_pos (by simp)]

/-- Any style-compilation call recorded by `compile` is the one issued by its
style stage. -/
theorem styleCall_mem_compile (env : RenderEnv) (filename source : Str)
    (verbose : Bool) (id fn src : Str) (sc : Bool)
    (h : CompileEvent.styleCall id fn src sc ∈ (compile env filename source verbose).2) :
    CompileEvent.styleCall id fn src sc
      ∈ (styleStep env filename (env.parse source filename).descriptor).2 := by
  simp only [compile] at h
  split at h
  · simp at h
  · split at h
    · rename_i e tr1 heq1
      have ht1 : tr1 = (scriptStep env (env.parse source filename).descriptor).2 :=
        (congrArg Prod.snd heq1).symm
      rw [scriptStep_snd] at ht1
      subst ht1
      split at h <;> simp at h
    · rename_i script tr1 heq1
      have ht1 : tr1 = (scriptStep env (env.parse source filename).descriptor).2 :=
        (congrArg Prod.snd heq1).symm
      rw [scriptStep_snd] at ht1
      subst ht1
      split at h
      · rename_i e tr2 heq2
        have ht2 : tr2 = (styleStep env filename (env.parse source filename).descriptor).2 :=
          (congrArg Prod.snd heq2).symm
        subst ht2
        simp only [List.mem_append] at h
        rcases h with (h | h) | h
        · simp at h
        · split at h <;> simp at h
        · exact h
      · rename_i styles tr2 heq2
        have ht2 : tr2 = (styleStep env filename (env.parse source filename).descriptor).2 :=
          (congrArg Prod.snd heq2).symm
        subst ht2
        split at h
        · rename_i e tr3 heq3
          have ht3 : tr3 = (templateStep env filename (env.parse source filename).descriptor script).2 :=
            (congrArg Prod.snd heq3).symm
          rw [templateStep_snd] at ht3
          subst ht3
          simp only [List.mem_append] at h
          rcases h with ((h | h) | h) | h
          · simp at h
          · split at h <;> simp at h
          · exact h
          · split at h <;> simp at h
        · rename_i t tr3 heq3
          have ht3 : tr3 = (templateStep env filename (env.parse source filename).descriptor script).2 :=
            (congrArg Prod.snd heq3).symm
          rw [templateStep_snd] at ht3
          subst ht3
          simp only [List.mem_append] at h
          rcases h with ((h | h) | h) | h
          · simp at h
          · split at h <;> simp at h
          · exact h
          · split at h <;> simp at h

/-- Claim C7: whenever `compile` issues a style compilation, the style source
is the FIRST style block's content, and scoping is requested if and only if
SOME style block (not necessarily the first) declares itself scoped; the id
and filename arguments are the parser's filename and the compile filename. -/
theorem compile_style_first_any_scoped (env : RenderEnv) (filename source : Str)
    (verbose : Bool) (id fn src : Str) (sc : Bool)
    (h : CompileEvent.styleCall id fn src sc ∈ (compile env filename source verbose).2) :
    ∃ s0 rest, (env.parse source filename).descriptor.styles = s0 :: rest ∧
      src = s0.content ∧
      sc = ((env.parse source filename).descriptor.styles.any StyleBlock.«scoped») ∧
      id = (env.parse source filename).descriptor.filename ∧
      fn = filename := by
  have hmem := styleCall_mem_compile env filename source verbose id fn src sc h
  rw [styleStep_snd] at hmem
  rcases hsty : (env.parse source filename).descriptor.styles with _ | ⟨s0, rest⟩
  · rw [hsty] at hmem
    simp at hmem
  · rw [hsty] at hmem
    simp only [List.mem_singleton, CompileEvent.styleCall.injEq] at hmem
    exact ⟨s0, rest, rfl, hmem.2.2.1, hmem.2.2.2, hmem.1, hmem.2.1⟩

/-! ## Claim C2: what the fused module exports -/

/-- Claim C2 as stated is false: for a successfully parsed source with NO
script block and a style block, the generated module attaches the style and
filename to the internal symbol `_sfc_main` but exports the fresh object
`{ render }` as default, so the module's default export carries neither the
style payload nor the filename field. -/
theorem fused_export_scriptless_counterexample :
    ¬ ((fusedDefaultExport none (some { code := "css".data }) ("tc".data) ("F".data)).style
        = some ("css".data)
      ∧ (fusedDefaultExport none (some { code := "css".data }) ("tc".data) ("F".data)).file
        = some ("F".data)) := by
  decide

/-- Claim C2 amended: for every successfully parsed source, the fused module
body is exactly `fuseOutput` of the compiled pieces; WHEN A SCRIPT BLOCK IS
PRESENT the text exports the internal symbol and the default export carries
the render function, the style payload (when styles exist) and the filename
field; when NO script block is present the text exports a fresh
`\x7b render \x7d` object, and the default export carries only the render
function - no style payload and no filename field. -/
theorem compile_fused_export_characterization (env : RenderEnv) (filename source : Str)
    (verbose : Bool) (out : Str)
    (h : (compile env filename source verbose).1 = Except.ok out) :
    ∃ script styles tcode,
      out = fuseOutput script styles tcode (env.parse source filename).descriptor.filename ∧
      (∀ sc, script = some sc →
        (fusedDefaultExport script styles tcode
            (env.parse source filename).descriptor.filename).render = tcode ∧
        (fusedDefaultExport script styles tcode
            (env.parse source filename).descriptor.filename).style
          = styles.map StyleCompileResult.code ∧
        (fusedDefaultExport script styles tcode
            (env.parse source filename).descriptor.filename).file
          = some (env.parse source filename).descriptor.filename ∧
        ∃ u v, out = u ++ "export default _sfc_main".data ++ v) ∧
      (script = none →
        fusedDefaultExport script styles tcode (env.parse source filename).descriptor.filename
          = { render := tcode, style := none, file := none, scriptPart := none } ∧
        ∃ u v, out = u ++ "export default \x7b render \x7d".data ++ v) := by
  simp only [compile] at h
  split at h
  · cases h
  · split at h
    · cases h
    · rename_i script tr1 heq1
      split at h
      · cases h
      · rename_i styles tr2 heq2
        split at h
        · cases h
        · rename_i t tr3 heq3
          dsimp only at h
          injection h with hout
          refine ⟨script, styles, t.code, hout.symm, ?_, ?_⟩
          · rintro sc rfl
            refine ⟨rfl, rfl, rfl, ?_⟩
            rw [← hout]
            rw [show ("export default _sfc_main".data : Str)
              = "export default ".data ++ scriptIdentifier from by decide]
            exact ⟨_, _, rfl⟩
          · rintro rfl
            refine ⟨rfl, ?_⟩
            rw [← hout]
            exact ⟨_, _, rfl⟩

/-! ## Claim C1: total output shape of `templateRender` -/

theorem finishE_shape (env : RenderEnv) (verbose : Bool) (options : Option RenderOptions)
    (config : Option Options) (app2 : App) :
    (∃ e, finishE env verbose options config app2 = Except.error e) ∨
    (∃ app markup, env.renderToString app = Except.ok markup ∧
      finishE env verbose options config app2 = Except.ok (DOCTYPE ++ env.cleanup markup)) := by
  unfold finishE
  cases installI18n env verbose options config app2 with
  | error e => exact Or.inl ⟨e, rfl⟩
  | ok app3 =>
    dsimp only
    cases hr : env.renderToString app3 with
    | error e => exact Or.inl ⟨e, rfl⟩
    | ok markup => exact Or.inr ⟨app3, markup, hr, rfl⟩

theorem templateRenderE_shape (env : RenderEnv) (mc : Str) (name : Str)
    (code : SourceOptions) (options : Option RenderOptions) (config : Option Options) :
    (∃ e, templateRenderE env mc name code options config = Except.error e) ∨
    (∃ app markup, env.renderToString app = Except.ok markup ∧
      templateRenderE env mc name code options config
        = Except.ok (DOCTYPE ++ env.cleanup markup)) := by
  unfold templateRenderE
  cases loadComponent env (correctName name) code.source (verboseOf config) with
  | none => exact Or.inl ⟨_, rfl⟩
  | some component =>
    dsimp only
    exact finishE_shape env (verboseOf config) options config _

/-- Claim C1: `templateRender` is a total function (the top-level `try/catch`
means no exception reaches the caller), and for every environment and input
its result is either the fixed legacy doctype concatenated with the cleaned
serialized markup (when the body succeeds) or exactly the empty string (when
any step of the body fails). -/
theorem templateRender_total_output_shape (env : RenderEnv) (mc : Str) (name : Str)
    (code : SourceOptions) (options : Option RenderOptions) (config : Option Options) :
    (∃ e, templateRenderE env mc name code options config = Except.error e ∧
      templateRender env mc name code options config = []) ∨
    (∃ app markup, env.renderToString app = Except.ok markup ∧
      templateRenderE env mc name code options config
        = Except.ok (DOCTYPE ++ env.cleanup markup) ∧
      templateRender env mc name code options config = DOCTYPE ++ env.cleanup markup) := by
  rcases templateRenderE_shape env mc name code options config with ⟨e, he⟩ | ⟨app, m, hr, he⟩
  · exact Or.inl ⟨e, he, by unfold templateRender; rw [he]⟩
  · exact Or.inr ⟨app, m, hr, he, by unfold templateRender; rw [he]⟩

/-! ## Claim C5: root load failure is fatal, sub-component load failure is not -/


theorem registerSubs_cons_none (env : RenderEnv) (mc : Str) (verbose : Bool) (app : App)
    (ec : EmailComponent) (rest : List EmailComponent)
    (h : loadComponent env (correctName ec.name) ec.source verbose = none) :
    registerSubs env mc verbose app (ec :: rest) = registerSubs env mc verbose app rest := by
  simp only [registerSubs, h]

theorem registerSubs_cons_some (env : RenderEnv) (mc : Str) (verbose : Bool) (app : App)
    (ec : EmailComponent) (rest : List EmailComponent) (cc : Str)
    (h : loadComponent env (correctName ec.name) ec.source verbose = some cc) :
    registerSubs env mc verbose app (ec :: rest)
      = registerSubs env mc verbose
          { app with components := fun n =>
              if n = correctName ec.name then some (cc, mc) else app.components n }
          rest := by
  simp only [registerSubs, h]

theorem registerSubs_skip_of_load_fail (env : RenderEnv) (mc : Str) (verbose : Bool)
    (ec : EmailComponent)
    (hec : loadComponent env (correctName ec.name) ec.source verbose = none) :
    ∀ pre post app, registerSubs env mc verbose app (pre ++ ec :: post)
      = registerSubs env mc verbose app (pre ++ post) := by
  intro pre
  induction pre with
  | nil =>
    intro post app
    simp only [List.nil_append]
    exact registerSubs_cons_none env mc verbose app ec post hec
  | cons p ps ih =>
    intro post app
    simp only [List.cons_append]
    cases hp : loadComponent env (correctName p.name) p.source verbose with
    | some cc =>
      rw [registerSubs_cons_some _ _ _ _ _ _ _ hp, registerSubs_cons_some _ _ _ _ _ _ _ hp]
      exact ih post _
    | none =>
      rw [registerSubs_cons_none _ _ _ _ _ _ hp, registerSubs_cons_none _ _ _ _ _ _ hp]
      exact ih post app

/-- Claim C5: (1) if the ROOT component fails to load, `templateRender`
returns the empty string (fatal); (2) if a LISTED sub-component fails to
load, it is skipped - the render's result is the same as if that entry had
not been listed at all, so the parent render proceeds and can succeed. -/
theorem root_fatal_sub_nonfatal :
    (∀ (env : RenderEnv) (mc name : Str) (code : SourceOptions)
        (options : Option RenderOptions) (config : Option Options),
      loadComponent env (correctName name) code.source (verboseOf config) = none →
      templateRender env mc name code options config = []) ∧
    (∀ (env : RenderEnv) (mc name source : Str) (pre post : List EmailComponent)
        (ec : EmailComponent)
        (options : Option RenderOptions) (config : Option Options),
      loadComponent env (correctName ec.name) ec.source (verboseOf config) = none →
      templateRender env mc name
          { source := source, components := some (pre ++ ec :: post) } options config
        = templateRender env mc name
          { source := source, components := some (pre ++ post) } options config) := by
  constructor
  · intro env mc name code options config hroot
    unfold templateRender templateRenderE
    rw [hroot]
  · intro env mc name source pre post ec options config hec
    unfold templateRender templateRenderE
    dsimp only
    cases hload : loadComponent env (correctName name) source (verboseOf config) with
    | none => rfl
    | some component =>
      dsimp only
      have happ2 : ∀ app1 : App,
          (if 0 < (pre ++ ec :: post).length
            then registerSubs env mc (verboseOf config) app1 (pre ++ ec :: post) else app1)
          = (if 0 < (pre ++ post).length
            then registerSubs env mc (verboseOf config) app1 (pre ++ post) else app1) := by
        intro app1
        rw [if_pos (by simp)]
        rw [registerSubs_skip_of_load_fail env mc (verboseOf config) ec hec pre post app1]
        by_cases hl : 0 < (pre ++ post).length
        · rw [if_pos hl]
        · rw [if_neg hl]
          have hpp : pre ++ post = [] := by
            cases hx : pre ++ post with
            | nil => rfl
            | cons a b => rw [hx] at hl; simp at hl
          rw [hpp]
          rfl
      rw [happ2]

/-! ## Claim C8: last registration wins on name collisions -/

/-- Independent specification: the definition loaded for the LAST entry of
the list whose normalized name is `n` and whose load succeeds (searched from
the right). -/
def lastLoadedFor (env : RenderEnv) (verbose : Bool) (comps : List EmailComponent)
    (n : Str) : Option Str :=
  (comps.reverse.find? (fun ec => (correctName ec.name == n)
      && (loadComponent env (correctName ec.name) ec.source verbose).isSome)).bind
    (fun ec => loadComponent env (correctName ec.name) ec.source verbose)

theorem lastLoadedFor_cons (env : RenderEnv) (verbose : Bool) (ec : EmailComponent)
    (rest : List EmailComponent) (n : Str) :
    lastLoadedFor env verbose (ec :: rest) n =
      match lastLoadedFor env verbose rest n with
      | some d => some d
      | none =>
        if correctName ec.name = n
        then loadComponent env (correctName ec.name) ec.source verbose
        else none := by
  unfold lastLoadedFor
  rw [show (ec :: rest).reverse = rest.reverse ++ [ec] by simp, List.find?_append]
  cases hfind : rest.reverse.find? (fun ec => (correctName ec.name == n)
      && (loadComponent env (correctName ec.name) ec.source verbose).isSome) with
  | some ec' =>
    have hp := List.find?_some hfind
    simp only [Bool.and_eq_true, beq_iff_eq, Option.isSome_iff_exists] at hp
    obtain ⟨-, d, hd⟩ := hp
    simp [hd]
  | none =>
    simp only [Option.none_or]
    by_cases hn : correctName ec.name = n
    · cases hload : loadComponent env (correctName ec.name) ec.source verbose with
      | some cc =>
        have hload2 : loadComponent env n ec.source verbose = some cc := by
          rw [← hn]; exact hload
        rw [List.find?_cons_of_pos _ (by rw [hload]; simp [hn])]
        simp [hn, hload2]
      | none =>
        rw [List.find?_cons_of_neg _ (by rw [hload]; simp)]
        simp [hn]
    · rw [List.find?_cons_of_neg _ (by simp [hn])]
      simp [hn]

/-- Claim C8: after the registration loop, the registry binds each name to
the definition of the LAST list entry that normalizes to that name and loads
successfully (paired with the spread built-in mapping); in particular, when
two entries collide and both load successfully, the later one overwrites the
earlier one.  Names with no such entry keep their prior binding. -/
theorem register_last_wins (env : RenderEnv) (mc : Str) (verbose : Bool)
    (comps : List EmailComponent) :
    ∀ (app : App) (n : Str),
    (registerSubs env mc verbose app comps).components n =
      match lastLoadedFor env verbose comps n with
      | some d => some (d, mc)
      | none => app.components n := by
  induction comps with
  | nil => intro app n; rfl
  | cons ec rest ih =>
    intro app n
    rw [lastLoadedFor_cons]
    cases hload : loadComponent env (correctName ec.name) ec.source verbose with
    | some cc =>
      rw [registerSubs_cons_some _ _ _ _ _ _ _ hload, ih]
      cases hLL : lastLoadedFor env verbose rest n with
      | some d => rfl
      | none =>
        dsimp only
        by_cases hn : correctName ec.name = n
        · rw [if_pos hn, if_pos hn.symm]
        · rw [if_neg hn, if_neg (fun hx => hn hx.symm)]
    | none =>
      rw [registerSubs_cons_none _ _ _ _ _ _ hload, ih]
      cases hLL : lastLoadedFor env verbose rest n with
      | some d => rfl
      | none =>
        dsimp only
        by_cases hn : correctName ec.name = n
        · rw [if_pos hn]
        · rw [if_neg hn]

/-! ## Claim C10: the resolved locale defaults to en -/

theorem jsOrStr_ne_nil (a : Option Str) (b : Str) (hb : b ≠ []) : jsOrStr a b ≠ [] := by
  cases a with
  | none => exact hb
  | some s =>
    by_cases hs : s.isEmpty
    · simp only [jsOrStr, hs, if_true]
      exact hb
    · simp only [jsOrStr, hs, if_false, Bool.false_eq_true]
      intro hnil
      exact hs (by rw [hnil]; rfl)

/-- Claim C10: when localization intent is present (`hasI18n`), the resolved
default locale is never the empty string - in particular, when neither the
call options nor the global config supplies a truthy `defaultLocale`, it is
exactly `"en"` - the argument record handed to `createI18n` carries that
locale, and the i18n block never finishes without installing the engine: it
either installs the constructed engine into the application instance or
fails the whole call. -/
theorem i18n_locale_defaults_en (options : Option RenderOptions) (config : Option Options)
    (h : hasI18n options config = true) :
    resolvedDefaultLocale options config ≠ [] ∧
    ((strTruthy ((optionsI18n options).bind I18nOptions.defaultLocale) = false ∧
      strTruthy ((configI18n config).bind I18nOptions.defaultLocale) = false) →
      resolvedDefaultLocale options config = "en".data) ∧
    (∀ verbose, (i18nArgsOf options config verbose).locale
      = resolvedDefaultLocale options config) ∧
    (∀ (env : RenderEnv) (verbose : Bool) (app : App),
      (∃ e, installI18n env verbose options config app = Except.error e) ∨
      (∃ inst, env.createI18n (i18nArgsOf options config verbose) = Except.ok inst ∧
        installI18n env verbose options config app
          = Except.ok { app with i18n := some (inst, i18nArgsOf options config verbose) })) := by
  have hne : resolvedDefaultLocale options config ≠ [] := by
    apply jsOrStr_ne_nil
    apply jsOrStr_ne_nil
    intro hx
    cases hx
  refine ⟨hne, ?_, fun _ => rfl, ?_⟩
  · rintro ⟨h1, h2⟩
    cases ho : (optionsI18n options).bind I18nOptions.defaultLocale with
    | none =>
      cases hc : (configI18n config).bind I18nOptions.defaultLocale with
      | none => simp [resolvedDefaultLocale, jsOrStr, ho, hc]
      | some s =>
        have hs : s.isEmpty = true := by
          unfold strTruthy at h2
          rw [hc] at h2
          simpa using h2
        simp [resolvedDefaultLocale, jsOrStr, ho, hc, hs]
    | some s =>
      have hs : s.isEmpty = true := by
        unfold strTruthy at h1
        rw [ho] at h1
        simpa using h1
      cases hc : (configI18n config).bind I18nOptions.defaultLocale with
      | none => simp [resolvedDefaultLocale, jsOrStr, ho, hc, hs]
      | some s2 =>
        have hs2 : s2.isEmpty = true := by
          unfold strTruthy at h2
          rw [hc] at h2
          simpa using h2
        simp [resolvedDefaultLocale, jsOrStr, ho, hc, hs, hs2]
  · intro env verbose app
    unfold installI18n
    rw [if_pos h]
    rw [if_neg (by simpa [List.isEmpty_iff] using hne)]
    cases env.createI18n (i18nArgsOf options config verbose) with
    | error e => exact Or.inl ⟨missingI18nMsg, rfl⟩
    | ok inst => exact Or.inr ⟨inst, rfl, rfl⟩

/-! ## Claim C9: no shared mutable state between calls -/

/-- Claim C9: the module-level state (the built-in `components` object) is
returned unchanged by every call, a call running after another call produces
exactly the output it would produce from the pristine state (no cross-call
leakage of sub-component registrations or locale state), and the
state-threaded semantics agrees with the pure function of the call's own
arguments. -/
theorem templateRender_no_shared_state (env : RenderEnv) (st : Str)
    (n1 : Str) (c1 : SourceOptions) (o1 : Option RenderOptions) (g1 : Option Options)
    (n2 : Str) (c2 : SourceOptions) (o2 : Option RenderOptions) (g2 : Option Options) :
    (templateRenderSt env st n1 c1 o1 g1).2 = st ∧
    (templateRenderSt env ((templateRenderSt env st n1 c1 o1 g1).2) n2 c2 o2 g2).1
      = (templateRenderSt env st n2 c2 o2 g2).1 ∧
    (templateRenderSt env st n1 c1 o1 g1).1 = templateRender env st n1 c1 o1 g1 := by
  simp [templateRenderSt_eq]

/-! ## A concrete collaborator environment for witnessing the theorems -/

/-- A small concrete environment: the source `"bad"` fails parsing with one
diagnostic; the source `"sty"` parses with two style blocks (the second
scoped) and template content `"t"`; every other source parses into a
template-only component whose template is the source itself.  All compilers,
the module evaluator, the serializer and the i18n constructor succeed. -/
def testEnv : RenderEnv where
  parse := fun source filename =>
    if source = "bad".data then
      { descriptor := { filename := filename
                        script := none
                        scriptSetup := none
                        styles := []
                        template := none }
        errors := ["SyntaxError: bad".data] }
    else if source = "sty".data then
      { descriptor := { filename := filename
                        script := none
                        scriptSetup := none
                        styles := [{ content := "c1".data, «scoped» := false },
                                   { content := "c2".data, «scoped» := true }]
                        template := some ("t".data) }
        errors := [] }
    else
      { descriptor := { filename := filename
                        script := none
                        scriptSetup := none
                        styles := []
                        template := some source }
        errors := [] }
  compileScript := fun _ _ _ => Except.ok { content := "sc".data, bindings := "b".data }
  compileStyle := fun _ _ _ _ => Except.ok { code := "css".data }
  compileTemplate := fun _ _ src _ => Except.ok { code := src }
  importModule := fun text => Except.ok text
  renderToString := fun _ => Except.ok ("M".data)
  cleanup := fun s => s
  createI18n := fun _ => Except.ok ("i".data)

/-- Claim C6 witnessed: a source whose parse reports one diagnostic makes
`compile` abort with exactly that message and a parse-only trace. -/
theorem compile_parse_errors_abort_witness :
    compile testEnv ("F".data) ("bad".data) false =
      (Except.error (joinLines ["SyntaxError: bad".data]),
       [CompileEvent.parseCall ("bad".data) ("F".data)]) :=
  compile_parse_errors_abort testEnv ("F".data) ("bad".data) false
    ("SyntaxError: bad".data) [] (by decide)

/-- Claim C7 witnessed: the style call recorded for the two-style-block
source compiles the FIRST block's content with `scoped` from ANY block. -/
theorem compile_style_first_any_scoped_witness :
    ∃ s0 rest, (testEnv.parse ("sty".data) ("F".data)).descriptor.styles = s0 :: rest ∧
      ("c1".data) = s0.content ∧
      true = ((testEnv.parse ("sty".data) ("F".data)).descriptor.styles.any StyleBlock.«scoped») ∧
      ("F".data) = (testEnv.parse ("sty".data) ("F".data)).descriptor.filename ∧
      ("F".data) = ("F".data) :=
  compile_style_first_any_scoped testEnv ("F".data) ("sty".data) false
    ("F".data) ("F".data) ("c1".data) true (by decide)

/-- Claim C2 (amended) witnessed: a successful compile of a template-only
source produces exactly a fused module body. -/
theorem compile_fused_export_characterization_witness :
    ∃ script styles tcode,
      fuseOutput none none ("t".data) ("F".data)
        = fuseOutput script styles tcode
            (testEnv.parse ("t".data) ("F".data)).descriptor.filename := by
  obtain ⟨s, st, tc, h1, -, -⟩ :=
    compile_fused_export_characterization testEnv ("F".data) ("t".data) false
      (fuseOutput none none ("t".data) ("F".data)) (by rfl)
  exact ⟨s, st, tc, h1⟩

/-- Claim C5 witnessed: a failing root yields the empty string; a failing
listed sub-component leaves the render equal to the render without it, which
succeeds with a doctype-prefixed document. -/
theorem root_fatal_sub_nonfatal_witness :
    (loadComponent testEnv (correctName ("x".data)) ("bad".data) (verboseOf none) = none ∧
     templateRender testEnv ("B".data) ("x".data)
       { source := "bad".data, components := none } none none = []) ∧
    (loadComponent testEnv (correctName ("s".data)) ("bad".data) (verboseOf none) = none ∧
     templateRender testEnv ("B".data) ("x".data)
       { source := "t".data,
         components := some ([] ++ { name := "s".data, source := "bad".data } :: []) }
       none none
       = templateRender testEnv ("B".data) ("x".data)
         { source := "t".data, components := some ([] ++ []) } none none) ∧
    templateRender testEnv ("B".data) ("x".data)
       { source := "t".data, components := some [] } none none = DOCTYPE ++ "M".data := by
  refine ⟨⟨by decide, ?_⟩, ⟨by decide, ?_⟩, by decide⟩
  · exact root_fatal_sub_nonfatal.1 testEnv ("B".data) ("x".data)
      { source := "bad".data, components := none } none none (by decide)
  · exact root_fatal_sub_nonfatal.2 testEnv ("B".data) ("x".data) ("t".data) [] []
      { name := "s".data, source := "bad".data } none none (by decide)

/-- Call-level options carrying localization intent through translations
only (no default locale anywhere). -/
def i18nWitnessOptions : RenderOptions where
  props := none
  i18n := some { defaultLocale := none, translations := some ("tr".data) }

/-- Claim C10 witnessed: translations-only localization intent resolves the
locale to exactly en. -/
theorem i18n_locale_defaults_en_witness :
    hasI18n (some i18nWitnessOptions) none = true ∧
    resolvedDefaultLocale (some i18nWitnessOptions) none = "en".data :=
  ⟨by decide,
   (i18n_locale_defaults_en (some i18nWitnessOptions) none
      (by decide)).2.1 ⟨by decide, by decide⟩⟩
